import Mathlib

/-!
Verification of the replica-allocation and request-routing layer of the
DeepSpeed-MII repository (files `mii/deployment.py` and `mii/client.py`),
as a shallow embedding in Lean 4.

The embedding mirrors the Python source:
* `carveLoop` is the inner `while available_on_host >= tensor_parallel` loop
  of `_allocate_processes` (deployment.py, lines 170-194);
* `allocLoop` is the outer `for host, slots in resource_pool.items()` loop;
* `allocateProcesses` is `_allocate_processes` itself, taking the already
  fetched resource pool (the hostfile parsing itself is an external
  collaborator: `fetch_hostfile` comes from the deepspeed package);
* `buildReplicaConfigs` / `deployPlan` embed the load-balancer port-plan
  block of `deploy` (deployment.py, lines 106-126);
* `deploy` embeds the deployment-name validation order of the Python
  `deploy` (deployment.py, lines 77-81, before any allocation);
* the event-loop model (`AsyncTask`, `tickAll`, `queryInTensorParallel`)
  embeds `MIITensorParallelClient._query_in_tensor_parallel` and
  `MIITensorParallelClient.query` (client.py, lines 101-127);
* `terminateSeq` embeds `MIITensorParallelClient.terminate`
  (client.py, lines 129-132).
-/

namespace MII

/-- Errors raised by `_allocate_processes`.  In the Python source these are
an `assert` (no hosts in the hostfile) and two `ValueError`s that carry the
interpolated values shown here. -/
inductive AllocError where
  | noHosts : AllocError
  | hostCapacity (host : String) (slots width : Nat) : AllocError
  | clusterCapacity (requested allocated : Nat) : AllocError
  deriving Repr, DecidableEq

/-- The inner `while available_on_host >= tensor_parallel` loop of
`_allocate_processes`.  State: `available` is `available_on_host`,
`allocated` is `allocated_num`, `acc` is `replica_pool`.  The loop body
checks `allocated_num >= num_replicas` (break), then
`slots < tensor_parallel` (raise), then appends
`(host, list(range(slots - available, slots - available + tensor_parallel)))`,
increments `allocated_num` and decrements `available_on_host`. -/
def carveLoop (host : String) (slots width numReplicas : Nat)
    (available allocated : Nat) (acc : List (String × List Nat)) :
    Except AllocError (List (String × List Nat) × Nat) :=
  if width ≤ available then
    if numReplicas ≤ allocated then .ok (acc, allocated)
    else if slots < width then .error (.hostCapacity host slots width)
    else carveLoop host slots width numReplicas (available - width) (allocated + 1)
      (acc ++ [(host, List.range' (slots - available) width)])
  else .ok (acc, allocated)
termination_by numReplicas - allocated + available
decreasing_by omega

/-- The outer `for host, slots in resource_pool.items()` loop of
`_allocate_processes`: each host runs the carving loop with
`available_on_host` initialised to its slot count. -/
def allocLoop (width numReplicas : Nat) :
    List (String × Nat) → Nat → List (String × List Nat) →
    Except AllocError (List (String × List Nat) × Nat)
  | [], allocated, acc => .ok (acc, allocated)
  | (host, slots) :: rest, allocated, acc =>
    match carveLoop host slots width numReplicas slots allocated acc with
    | .error e => .error e
    | .ok (acc', allocated') => allocLoop width numReplicas rest allocated' acc'

/-- `_allocate_processes(hostfile_path, tensor_parallel, num_replicas)`
with the resource pool passed directly (the hostfile fetch is external).
Mirrors: the `assert resource_pool ... len(resource_pool) > 0`, the host
scan, and the final `if allocated_num < num_replicas: raise`. -/
def allocateProcesses (resource_pool : List (String × Nat))
    (tensor_parallel num_replicas : Nat) :
    Except AllocError (List (String × List Nat)) :=
  if resource_pool.length = 0 then .error .noHosts
  else
    match allocLoop tensor_parallel num_replicas resource_pool 0 [] with
    | .error e => .error e
    | .ok (replica_pool, allocated) =>
      if allocated < num_replicas then
        .error (.clusterCapacity num_replicas allocated)
      else .ok replica_pool

/-- Total slot count of a resource pool (used to state the spec's
"total slots ≥ width * replica_count" hypothesis). -/
def totalSlots (pool : List (String × Nat)) : Nat :=
  (pool.map Prod.snd).sum

/-- Usable capacity of a pool for a given group width: each host
contributes `slots / width` full blocks. -/
def usableCapacity (pool : List (String × Nat)) (width : Nat) : Nat :=
  (pool.map (fun p => p.2 / width)).sum

/-- Declarative description (from the spec's algorithm text) of the blocks
carved on one host: `k` consecutive `width`-sized blocks of slot indices,
the first starting at `start`. -/
def hostBlocks (host : String) (width start : Nat) :
    Nat → List (String × List Nat)
  | 0 => []
  | k + 1 => (host, List.range' start width) :: hostBlocks host width (start + width) k

/-- Declarative description (from the spec's algorithm text) of the whole
allocation: hosts in insertion order, each host contributing
`min (slots / width) remaining` blocks starting at index 0. -/
def specAllocation (width : Nat) : List (String × Nat) → Nat → List (String × List Nat)
  | [], _ => []
  | (host, slots) :: rest, remaining =>
    hostBlocks host width 0 (min (slots / width) remaining) ++
      specAllocation width rest (remaining - min (slots / width) remaining)

/-- The multiset of (host, slot index) pairs covered by a list of
allocations. -/
def allocationPairs (allocs : List (String × List Nat)) : List (String × Nat) :=
  allocs.flatMap fun a => a.2.map fun i => (a.1, i)

/-- `mii.config.ReplicaConfig` (constructed in `deploy`, deployment.py
lines 120-124). -/
structure ReplicaConfig where
  hostname : String
  tensor_parallel_ports : List Nat
  torch_dist_port : Nat
  gpu_indices : List Nat
  deriving Repr, DecidableEq

/-- `mii.config.LoadBalancerConfig` (constructed in `deploy`, deployment.py
lines 125-126). -/
structure LoadBalancerConfig where
  port : Nat
  replica_configs : List ReplicaConfig
  deriving Repr, DecidableEq

/-- Modelled from the spec: `MIIConfig.enable_load_balancing` is defined in
`mii/config.py`, which is not among the available source files.  The spec
states that "load balancing is enabled when `len(allocations) > 1`", i.e.
exactly when the number of replicas is greater than one. -/
def enable_load_balancing (replica_num : Nat) : Bool :=
  decide (1 < replica_num)

/-- The `for i, (hostname, gpu_indices) in enumerate(replica_pool)` loop of
`deploy` (deployment.py lines 112-124): replica `i` gets worker ports
`range(port_number + i*tensor_parallel + port_offset, ... + tensor_parallel)`
with `port_offset = 1 if enable_load_balancing else 0`, and coordination
port `torch_dist_port + i`. -/
def buildReplicaConfigs (elb : Bool) (tensor_parallel port_number torch_dist_port : Nat) :
    Nat → List (String × List Nat) → List ReplicaConfig
  | _, [] => []
  | i, (hostname, gpu_indices) :: rest =>
    let port_offset := if elb then 1 else 0
    let base_port := port_number + i * tensor_parallel + port_offset
    { hostname := hostname
      tensor_parallel_ports := List.range' base_port tensor_parallel
      torch_dist_port := torch_dist_port + i
      gpu_indices := gpu_indices } ::
      buildReplicaConfigs elb tensor_parallel port_number torch_dist_port (i + 1) rest

/-- The replica-deployment block of `deploy` (deployment.py lines 106-126):
when load balancing is enabled, allocate processes and build the
`LoadBalancerConfig`; otherwise `lb_config` stays `None`. -/
def deployPlan (resource_pool : List (String × Nat))
    (tensor_parallel replica_num port_number torch_dist_port : Nat) :
    Except AllocError (Option LoadBalancerConfig) :=
  if enable_load_balancing replica_num then
    match allocateProcesses resource_pool tensor_parallel replica_num with
    | .error e => .error e
    | .ok replica_pool =>
      .ok (some { port := port_number
                  replica_configs := buildReplicaConfigs
                    (enable_load_balancing replica_num) tensor_parallel
                    port_number torch_dist_port 0 replica_pool })
  else .ok none

/-- All ports mentioned by a `LoadBalancerConfig`: the balancer's own
listener port, every replica's worker ports, and every replica's
coordination port. -/
def allPorts (cfg : LoadBalancerConfig) : List Nat :=
  cfg.port :: ((cfg.replica_configs.flatMap fun rc => rc.tensor_parallel_ports) ++
    cfg.replica_configs.map fun rc => rc.torch_dist_port)

/-- Deployment types of `mii.constants.DeploymentType` that `deploy`
distinguishes. -/
inductive DeploymentType where
  | LOCAL : DeploymentType
  | AML : DeploymentType
  deriving Repr, DecidableEq

/-- Errors raised by `deploy` before returning: the AML deployment-name
assertion, or an allocation error propagated from `_allocate_processes`. -/
inductive DeployError where
  | invalidDeploymentName (name : String) : DeployError
  | alloc (e : AllocError) : DeployError
  deriving Repr, DecidableEq

/-- The character set of the AML name assertion in `deploy` (deployment.py
lines 79-80): `string.ascii_lowercase + string.ascii_uppercase +
string.digits + '-'`. -/
def allowedNameChar (c : Char) : Bool :=
  c.isLower || c.isUpper || c.isDigit || c == '-'

/-- `set(deployment_name) <= allowed_chars` (deployment.py line 81): every
character of the name lies in the allowed set. -/
def validDeploymentName (name : String) : Bool :=
  name.toList.all allowedNameChar

/-- The deploy pipeline order relevant to validation (deployment.py lines
77-126): the AML name assertion runs first, before the replica-allocation
and port-plan block. -/
def deploy (deployment_type : DeploymentType) (deployment_name : String)
    (resource_pool : List (String × Nat))
    (tensor_parallel replica_num port_number torch_dist_port : Nat) :
    Except DeployError (Option LoadBalancerConfig) :=
  if deployment_type = DeploymentType.AML ∧ validDeploymentName deployment_name = false
  then .error (.invalidDeploymentName deployment_name)
  else
    match deployPlan resource_pool tensor_parallel replica_num
        port_number torch_dist_port with
    | .error e => .error (.alloc e)
    | .ok cfg => .ok cfg

/-- One rank's endpoint of a tensor-parallel replica, as seen by the
client model: a pure response function (the grpc stub call of
`MIIClient._request_async_response`) plus the number of scheduler ticks
until its response future resolves. -/
structure Endpoint (ρ ε α : Type) where
  latency : Nat
  respond : ρ → Except ε α

/-- An in-flight task on the client's asyncio event loop: the ticks left
until completion and the value its future resolves to. -/
structure AsyncTask (ε α : Type) where
  remaining : Nat
  result : Except ε α

/-- One scheduling turn of the cooperative event loop: every in-flight
task progresses by one tick. -/
def tickAll {ε α : Type} (tasks : List (AsyncTask ε α)) : List (AsyncTask ε α) :=
  tasks.map fun t => { t with remaining := t.remaining - 1 }

/-- The task-creation loop of `_query_in_tensor_parallel` (client.py lines
102-107): one task per rank's client, each sent the same
`request_string`. -/
def createTasks {ρ ε α : Type} (clients : List (Endpoint ρ ε α)) (request : ρ) :
    List (AsyncTask ε α) :=
  clients.map fun c => { remaining := c.latency, result := c.respond request }

/-- `_query_in_tensor_parallel` followed by `query`'s `response.result()`
(client.py lines 101-127): submit a task per rank, `await responses[0]`
(the loop runs until rank 0's task completes, every task advancing each
turn), and return rank 0's result.  The second component is the state of
the loop's task list at the moment `query` returns. -/
def queryInTensorParallel {ρ ε α : Type} (clients : List (Endpoint ρ ε α))
    (request : ρ) : Option (Except ε α) × List (AsyncTask ε α) :=
  let responses := createTasks clients request
  let ticks := (responses.head?.map AsyncTask.remaining).getD 0
  let final := tickAll^[ticks] responses
  (final.head?.map AsyncTask.result, final)

/-- `MIITensorParallelClient.terminate` (client.py lines 129-132):
`for client in self.clients: client.terminate()`.  Input: the outcome each
rank's `terminate()` would have.  Output: which ranks' `terminate()` the
loop actually invoked, and the exception that escapes the loop (the first
failure), if any. -/
def terminateSeq {ε : Type} : List (Except ε Unit) → List Bool × Option ε
  | [] => ([], none)
  | c :: rest =>
    match c with
    | .ok _ =>
      let r := terminateSeq rest
      (true :: r.1, r.2)
    | .error e => (true :: rest.map fun _ => false, some e)

theorem carveLoop_closed_form (host : String) (slots width numReplicas : Nat)
    (hw : 0 < width) :
    ∀ available, available ≤ slots → ∀ allocated acc,
      carveLoop host slots width numReplicas available allocated acc =
        .ok (acc ++ hostBlocks host width (slots - available)
              (min (available / width) (numReplicas - allocated)),
          allocated + min (available / width) (numReplicas - allocated)) := by
  intro available
  induction available using Nat.strong_induction_on with
  | _ available ih =>
    intro hav allocated acc
    rw [carveLoop]
    by_cases hwa : width ≤ available
    · by_cases hna : numReplicas ≤ allocated
      · have h0 : numReplicas - allocated = 0 := by omega
        simp [hwa, hna, h0, hostBlocks]
      · have hsw : ¬ slots < width := by omega
        have hlt : available - width < available := by omega
        have hrec := ih (available - width) hlt (by omega) (allocated + 1)
          (acc ++ [(host, List.range' (slots - available) width)])
        simp only [hwa, if_pos, hna, if_neg, hsw, if_false, ite_false, ite_true]
        rw [hrec]
        have hdiv : available / width = (available - width) / width + 1 :=
          Nat.div_eq_sub_div hw hwa
        have hk : min (available / width) (numReplicas - allocated) =
            min ((available - width) / width) (numReplicas - (allocated + 1)) + 1 := by
          omega
        have hstart : slots - (available - width) = (slots - available) + width := by
          omega
        rw [hk, hstart, hostBlocks]
        simp [List.append_assoc]
        omega
    · have hd : available / width = 0 := Nat.div_eq_of_lt (by omega)
      simp [hwa, hd, hostBlocks]

theorem allocLoop_closed_form (width numReplicas : Nat) (hw : 0 < width) :
    ∀ (pool : List (String × Nat)) (allocated : Nat) (acc : List (String × List Nat)),
      allocLoop width numReplicas pool allocated acc =
        .ok (acc ++ specAllocation width pool (numReplicas - allocated),
          allocated + min (usableCapacity pool width) (numReplicas - allocated)) := by
  intro pool
  induction pool with
  | nil => intro allocated acc; simp [allocLoop, specAllocation, usableCapacity]
  | cons p rest ih =>
    obtain ⟨host, slots⟩ := p
    intro allocated acc
    rw [allocLoop,
      carveLoop_closed_form host slots width numReplicas hw slots (Nat.le_refl slots)]
    dsimp only
    rw [ih]
    rw [specAllocation]
    have hsub : numReplicas - (allocated + min (slots / width) (numReplicas - allocated)) =
        numReplicas - allocated - min (slots / width) (numReplicas - allocated) := by
      omega
    rw [Nat.sub_self, hsub, List.append_assoc]
    have hcap : usableCapacity ((host, slots) :: rest) width =
        slots / width + usableCapacity rest width := by
      simp [usableCapacity]
    rw [hcap]
    have harith : allocated + min (slots / width) (numReplicas - allocated) +
        min (usableCapacity rest width)
          (numReplicas - allocated - min (slots / width) (numReplicas - allocated)) =
        allocated + min (slots / width + usableCapacity rest width)
          (numReplicas - allocated) := by
      generalize slots / width = sd
      generalize usableCapacity rest width = u
      generalize numReplicas - allocated = m
      omega
    rw [harith]

theorem allocateProcesses_ok (pool : List (String × Nat)) (width numReplicas : Nat)
    (hw : 0 < width) (hr : 0 < numReplicas)
    (hcap : numReplicas ≤ usableCapacity pool width) :
    allocateProcesses pool width numReplicas = .ok (specAllocation width pool numReplicas) := by
  have hne : pool.length ≠ 0 := by
    intro h
    rw [List.length_eq_zero] at h
    subst h
    simp [usableCapacity] at hcap
    omega
  rw [allocateProcesses, if_neg hne, allocLoop_closed_form width numReplicas hw pool 0 []]
  have hmin : min (usableCapacity pool width) (numReplicas - 0) = numReplicas := by omega
  simp only [Nat.sub_zero, Nat.zero_add, hmin, List.nil_append]
  rw [if_neg (by omega)]

theorem allocateProcesses_insufficient (pool : List (String × Nat))
    (width numReplicas : Nat) (hw : 0 < width) (hne : pool ≠ [])
    (hcap : usableCapacity pool width < numReplicas) :
    allocateProcesses pool width numReplicas =
      .error (.clusterCapacity numReplicas (usableCapacity pool width)) := by
  have hlen : pool.length ≠ 0 := by
    intro h; exact hne (List.length_eq_zero.mp h)
  rw [allocateProcesses, if_neg hlen, allocLoop_closed_form width numReplicas hw pool 0 []]
  have hmin : min (usableCapacity pool width) numReplicas = usableCapacity pool width := by
    omega
  simp only [Nat.sub_zero, Nat.zero_add, List.nil_append]
  rw [hmin, if_pos (by omega)]

theorem hostBlocks_length (host : String) (width : Nat) :
    ∀ k start, (hostBlocks host width start k).length = k := by
  intro k
  induction k with
  | zero => intro start; simp [hostBlocks]
  | succ k ih => intro start; simp [hostBlocks, ih]

theorem specAllocation_length (width : Nat) :
    ∀ (pool : List (String × Nat)) (remaining : Nat),
      (specAllocation width pool remaining).length =
        min (usableCapacity pool width) remaining := by
  intro pool
  induction pool with
  | nil => intro remaining; simp [specAllocation, usableCapacity]
  | cons p rest ih =>
    obtain ⟨host, slots⟩ := p
    intro remaining
    rw [specAllocation]
    rw [List.length_append, hostBlocks_length, ih]
    have hcap : usableCapacity ((host, slots) :: rest) width =
        slots / width + usableCapacity rest width := by simp [usableCapacity]
    rw [hcap]
    generalize slots / width = sd
    generalize usableCapacity rest width = u
    omega

theorem hostBlocks_mem (host : String) (width : Nat) :
    ∀ k start x, x ∈ hostBlocks host width start k →
      x.1 = host ∧ x.2.length = width := by
  intro k
  induction k with
  | zero => intro start x hx; simp [hostBlocks] at hx
  | succ k ih =>
    intro start x hx
    rw [hostBlocks, List.mem_cons] at hx
    rcases hx with h | h
    · subst h; exact ⟨rfl, List.length_range' ..⟩
    · exact ih (start + width) x h

theorem specAllocation_mem (width : Nat) :
    ∀ (pool : List (String × Nat)) (remaining : Nat) x,
      x ∈ specAllocation width pool remaining →
        x.1 ∈ pool.map Prod.fst ∧ x.2.length = width := by
  intro pool
  induction pool with
  | nil => intro remaining x hx; simp [specAllocation] at hx
  | cons p rest ih =>
    obtain ⟨host, slots⟩ := p
    intro remaining x hx
    rw [specAllocation, List.mem_append] at hx
    rcases hx with h | h
    · obtain ⟨h1, h2⟩ := hostBlocks_mem host width _ 0 x h
      exact ⟨by simp [h1], h2⟩
    · obtain ⟨h1, h2⟩ := ih _ x h
      exact ⟨by rw [List.map_cons]; exact List.mem_cons_of_mem _ h1, h2⟩

theorem allocationPairs_append (a b : List (String × List Nat)) :
    allocationPairs (a ++ b) = allocationPairs a ++ allocationPairs b := by
  simp [allocationPairs]

theorem allocationPairs_hostBlocks (host : String) (width : Nat) :
    ∀ k start, allocationPairs (hostBlocks host width start k) =
      (List.range' start (k * width)).map (fun i => (host, i)) := by
  intro k
  induction k with
  | zero => intro start; simp [hostBlocks, allocationPairs]
  | succ k ih =>
    intro start
    rw [hostBlocks]
    have hcons : allocationPairs ((host, List.range' start width) ::
        hostBlocks host width (start + width) k) =
        (List.range' start width).map (fun i => (host, i)) ++
          allocationPairs (hostBlocks host width (start + width) k) := by
      simp [allocationPairs]
    rw [hcons, ih]
    rw [← List.map_append]
    have hr : List.range' start width ++ List.range' (start + width) (k * width) =
        List.range' start ((k + 1) * width) := by
      have := List.range'_append start width (k * width) 1
      simp only [Nat.one_mul] at this
      rw [this]
      ring_nf
    rw [hr]

theorem mem_allocationPairs (allocs : List (String × List Nat)) (x : String × Nat)
    (hx : x ∈ allocationPairs allocs) :
    ∃ a ∈ allocs, x.1 = a.1 ∧ x.2 ∈ a.2 := by
  simp only [allocationPairs, List.mem_flatMap, List.mem_map] at hx
  obtain ⟨a, ha, i, hi, hxi⟩ := hx
  exact ⟨a, ha, by rw [← hxi], by rw [← hxi]; exact hi⟩

theorem allocationPairs_specAllocation_nodup (width : Nat) :
    ∀ (pool : List (String × Nat)) (remaining : Nat),
      (pool.map Prod.fst).Nodup →
      (allocationPairs (specAllocation width pool remaining)).Nodup := by
  intro pool
  induction pool with
  | nil => intro remaining _; simp [specAllocation, allocationPairs]
  | cons p rest ih =>
    obtain ⟨host, slots⟩ := p
    intro remaining hnd
    rw [List.map_cons, List.nodup_cons] at hnd
    rw [specAllocation, allocationPairs_append, List.nodup_append]
    refine ⟨?_, ih _ hnd.2, ?_⟩
    · rw [allocationPairs_hostBlocks]
      exact (List.nodup_range' ..).map (fun a b hab => by
        simpa using congrArg Prod.snd hab)
    · intro x hx1 hx2
      rw [allocationPairs_hostBlocks] at hx1
      obtain ⟨i, _, hxi⟩ := List.mem_map.mp hx1
      obtain ⟨a, ha, hfst, _⟩ := mem_allocationPairs _ x hx2
      have hmem := (specAllocation_mem width rest _ a ha).1
      rw [← hxi] at hfst
      simp only at hfst
      rw [← hfst] at hmem
      exact hnd.1 hmem

theorem carveLoop_ok (host : String) (slots width numReplicas : Nat) :
    ∀ (m available allocated : Nat) (acc : List (String × List Nat)),
      numReplicas - allocated + available ≤ m → available ≤ slots →
      ∃ res, carveLoop host slots width numReplicas available allocated acc = .ok res := by
  intro m
  induction m with
  | zero =>
    intro available allocated acc hm hs
    rw [carveLoop]
    by_cases hwa : width ≤ available
    · have hna : numReplicas ≤ allocated := by omega
      rw [if_pos hwa, if_pos hna]
      exact ⟨_, rfl⟩
    · rw [if_neg hwa]
      exact ⟨_, rfl⟩
  | succ m ih =>
    intro available allocated acc hm hs
    rw [carveLoop]
    by_cases hwa : width ≤ available
    · by_cases hna : numReplicas ≤ allocated
      · rw [if_pos hwa, if_pos hna]
        exact ⟨_, rfl⟩
      · have hsw : ¬ slots < width := by omega
        rw [if_pos hwa, if_neg hna, if_neg hsw]
        exact ih (available - width) (allocated + 1) _ (by omega) (by omega)
    · rw [if_neg hwa]
      exact ⟨_, rfl⟩

theorem allocLoop_ok (width numReplicas : Nat) :
    ∀ (pool : List (String × Nat)) (allocated : Nat) (acc : List (String × List Nat)),
      ∃ res, allocLoop width numReplicas pool allocated acc = .ok res := by
  intro pool
  induction pool with
  | nil => intro allocated acc; exact ⟨_, rfl⟩
  | cons p rest ih =>
    obtain ⟨host, slots⟩ := p
    intro allocated acc
    obtain ⟨res, hres⟩ := carveLoop_ok host slots width numReplicas
      (numReplicas - allocated + slots) slots allocated acc (Nat.le_refl _)
      (Nat.le_refl _)
    rw [allocLoop, hres]
    exact ih res.2 res.1

theorem allocateProcesses_no_hostCapacity (pool : List (String × Nat))
    (width numReplicas : Nat) (host : String) (s w : Nat) :
    allocateProcesses pool width numReplicas ≠ .error (.hostCapacity host s w) := by
  rw [allocateProcesses]
  by_cases hlen : pool.length = 0
  · rw [if_pos hlen]
    intro h
    exact AllocError.noConfusion (Except.error.inj h)
  · rw [if_neg hlen]
    obtain ⟨⟨rp, alloc⟩, hres⟩ := allocLoop_ok width numReplicas pool 0 []
    rw [hres]
    dsimp only
    by_cases hal : alloc < numReplicas
    · rw [if_pos hal]
      intro h
      exact AllocError.noConfusion (Except.error.inj h)
    · rw [if_neg hal]
      intro h
      exact Except.noConfusion h

theorem buildReplicaConfigs_length (elb : Bool) (tp pn tdp : Nat) :
    ∀ (rp : List (String × List Nat)) (i : Nat),
      (buildReplicaConfigs elb tp pn tdp i rp).length = rp.length := by
  intro rp
  induction rp with
  | nil => intro i; simp [buildReplicaConfigs]
  | cons p rest ih =>
    obtain ⟨h, g⟩ := p
    intro i
    simp [buildReplicaConfigs, ih]

theorem buildReplicaConfigs_workerPorts (elb : Bool) (tp pn tdp : Nat) :
    ∀ (rp : List (String × List Nat)) (i : Nat),
      ((buildReplicaConfigs elb tp pn tdp i rp).flatMap
          fun rc => rc.tensor_parallel_ports) =
        List.range' (pn + i * tp + (if elb then 1 else 0)) (rp.length * tp) := by
  intro rp
  induction rp with
  | nil => intro i; simp [buildReplicaConfigs]
  | cons p rest ih =>
    obtain ⟨h, g⟩ := p
    intro i
    rw [buildReplicaConfigs]
    rw [List.flatMap_cons, ih (i + 1)]
    have hra := List.range'_append (pn + i * tp + (if elb then 1 else 0)) tp
      (rest.length * tp) 1
    simp only [Nat.one_mul] at hra
    have hstart : pn + i * tp + (if elb then 1 else 0) + tp =
        pn + (i + 1) * tp + (if elb then 1 else 0) := by ring
    rw [hstart] at hra
    rw [hra]
    have hlen : rest.length * tp + tp = ((h, g) :: rest).length * tp := by
      simp [Nat.succ_mul]
    rw [hlen]

theorem buildReplicaConfigs_coordPorts (elb : Bool) (tp pn tdp : Nat) :
    ∀ (rp : List (String × List Nat)) (i : Nat),
      ((buildReplicaConfigs elb tp pn tdp i rp).map fun rc => rc.torch_dist_port) =
        List.range' (tdp + i) rp.length := by
  intro rp
  induction rp with
  | nil => intro i; simp [buildReplicaConfigs]
  | cons p rest ih =>
    obtain ⟨h, g⟩ := p
    intro i
    rw [buildReplicaConfigs]
    rw [List.map_cons, ih (i + 1)]
    rw [List.length_cons, List.range'_succ]
    have : tdp + i + 1 = tdp + (i + 1) := by ring
    rw [this]

theorem buildReplicaConfigs_ports_get (elb : Bool) (tp pn tdp : Nat) :
    ∀ (rp : List (String × List Nat)) (i j : Nat)
      (hj : j < (buildReplicaConfigs elb tp pn tdp i rp).length),
      ((buildReplicaConfigs elb tp pn tdp i rp).get ⟨j, hj⟩).tensor_parallel_ports =
        List.range' (pn + (i + j) * tp + (if elb then 1 else 0)) tp := by
  intro rp
  induction rp with
  | nil => intro i j hj; simp [buildReplicaConfigs] at hj
  | cons p rest ih =>
    obtain ⟨h, g⟩ := p
    intro i j hj
    match j with
    | 0 => simp [buildReplicaConfigs]
    | j + 1 =>
      simp only [buildReplicaConfigs] at hj ⊢
      rw [List.get_cons_succ]
      rw [ih (i + 1) j]
      have : i + 1 + j = i + (j + 1) := by ring
      rw [this]

theorem tickAll_length {ε α : Type} (ts : List (AsyncTask ε α)) :
    (tickAll ts).length = ts.length := by
  simp [tickAll]

theorem tickAll_iterate_length {ε α : Type} (n : Nat) :
    ∀ ts : List (AsyncTask ε α), (tickAll^[n] ts).length = ts.length := by
  induction n with
  | zero => intro ts; simp
  | succ n ih =>
    intro ts
    rw [Function.iterate_succ_apply, ih, tickAll_length]

theorem tickAll_iterate_get {ε α : Type} (n : Nat) :
    ∀ (ts : List (AsyncTask ε α)) (i : Nat) (h : i < (tickAll^[n] ts).length)
      (h' : i < ts.length),
      (tickAll^[n] ts).get ⟨i, h⟩ =
        { remaining := (ts.get ⟨i, h'⟩).remaining - n
          result := (ts.get ⟨i, h'⟩).result } := by
  induction n with
  | zero =>
    intro ts i h h'
    simp only [Function.iterate_zero_apply] at h ⊢
    cases hts : ts.get ⟨i, h⟩
    simp [hts.symm]
  | succ n ih =>
    intro ts i h h'
    have h'' : i < (tickAll ts).length := by rw [tickAll_length]; exact h'
    have h2 : i < (tickAll^[n] (tickAll ts)).length := by
      rw [tickAll_iterate_length]; exact h''
    have key : (tickAll^[n + 1] ts).get ⟨i, h⟩ =
        (tickAll^[n] (tickAll ts)).get ⟨i, h2⟩ := rfl
    rw [key, ih (tickAll ts) i h2 h'']
    have hget : (tickAll ts).get ⟨i, h''⟩ =
        { remaining := (ts.get ⟨i, h'⟩).remaining - 1
          result := (ts.get ⟨i, h'⟩).result } := by
      simp [tickAll, List.get_eq_getElem, List.getElem_map]
    rw [hget]
    simp only
    congr 1
    omega

theorem head?_eq_get {β : Type} :
    ∀ (l : List β) (h : 0 < l.length), l.head? = some (l.get ⟨0, h⟩)
  | [], h => absurd h (by simp)
  | _ :: _, _ => rfl

theorem get0_of_head? {β : Type} {l : List β} {x : β} (h0 : l.head? = some x)
    (h : 0 < l.length) : l.get ⟨0, h⟩ = x := by
  cases l with
  | nil => simp at h
  | cons y ys => exact Option.some.inj h0

theorem createTasks_length {ρ ε α : Type} (clients : List (Endpoint ρ ε α))
    (request : ρ) : (createTasks clients request).length = clients.length := by
  simp [createTasks]

theorem createTasks_get {ρ ε α : Type} (clients : List (Endpoint ρ ε α))
    (request : ρ) (i : Nat) (hi : i < (createTasks clients request).length)
    (hi' : i < clients.length) :
    (createTasks clients request).get ⟨i, hi⟩ =
      { remaining := (clients.get ⟨i, hi'⟩).latency
        result := (clients.get ⟨i, hi'⟩).respond request } := by
  simp [createTasks, List.get_eq_getElem, List.getElem_map]

theorem createTasks_head? {ρ ε α : Type} (clients : List (Endpoint ρ ε α))
    (request : ρ) (c0 : Endpoint ρ ε α) (h0 : clients.head? = some c0) :
    (createTasks clients request).head? =
      some { remaining := c0.latency, result := c0.respond request } := by
  cases clients with
  | nil => simp at h0
  | cons c rest =>
    have hc : c = c0 := Option.some.inj h0
    subst hc
    rfl

theorem query_snd_length {ρ ε α : Type} (clients : List (Endpoint ρ ε α))
    (request : ρ) :
    (queryInTensorParallel clients request).2.length = clients.length := by
  simp [queryInTensorParallel, tickAll_iterate_length, createTasks_length]

theorem query_snd_get {ρ ε α : Type} (clients : List (Endpoint ρ ε α))
    (request : ρ) (c0 : Endpoint ρ ε α) (h0 : clients.head? = some c0)
    (i : Nat) (hi : i < (queryInTensorParallel clients request).2.length)
    (hi' : i < clients.length) :
    (queryInTensorParallel clients request).2.get ⟨i, hi⟩ =
      { remaining := (clients.get ⟨i, hi'⟩).latency - c0.latency
        result := (clients.get ⟨i, hi'⟩).respond request } := by
  have hhead := createTasks_head? clients request c0 h0
  have hti : i < (createTasks clients request).length := by
    rw [createTasks_length]; exact hi'
  have hgoal : (queryInTensorParallel clients request).2 =
      tickAll^[c0.latency] (createTasks clients request) := by
    simp [queryInTensorParallel, hhead]
  have hstep := List.get_of_eq hgoal ⟨i, hi⟩
  rw [hstep, tickAll_iterate_get c0.latency (createTasks clients request) i _ hti,
    createTasks_get clients request i hti hi']

theorem query_fst {ρ ε α : Type} (clients : List (Endpoint ρ ε α))
    (request : ρ) (c0 : Endpoint ρ ε α) (h0 : clients.head? = some c0) :
    (queryInTensorParallel clients request).1 = some (c0.respond request) := by
  have hne : 0 < clients.length := by
    cases clients with
    | nil => simp at h0
    | cons c rest => simp
  have hlen : 0 < (queryInTensorParallel clients request).2.length := by
    rw [query_snd_length]; exact hne
  have hfst : (queryInTensorParallel clients request).1 =
      ((queryInTensorParallel clients request).2.head?.map AsyncTask.result) := by
    simp [queryInTensorParallel]
  rw [hfst, head?_eq_get _ hlen,
    query_snd_get clients request c0 h0 0 hlen hne,
    get0_of_head? h0 hne]
  rfl

theorem allocateProcesses_h2 :
    allocateProcesses [("h", 2)] 1 2 = .ok [("h", [0]), ("h", [1])] := by
  rw [allocateProcesses_ok [("h", 2)] 1 2 (by decide) (by decide) (by decide)]
  rfl

theorem deployPlan_h2_eval (tdp : Nat) :
    deployPlan [("h", 2)] 1 2 100 tdp =
      .ok (some { port := 100
                  replica_configs := [
                    { hostname := "h", tensor_parallel_ports := [101]
                      torch_dist_port := tdp, gpu_indices := [0] },
                    { hostname := "h", tensor_parallel_ports := [102]
                      torch_dist_port := tdp + 1, gpu_indices := [1] }] }) := by
  simp only [deployPlan, allocateProcesses_h2, enable_load_balancing]
  norm_num [buildReplicaConfigs, List.range']

theorem mem_range'_bounds {s n m : Nat} (h : m ∈ List.range' s n) :
    s ≤ m ∧ m < s + n := by
  rw [List.mem_range'] at h
  obtain ⟨i, hi, rfl⟩ := h
  omega

/-- C1.  The claim as stated is false on the code: for the pool
{hostA: 6, hostB: 6} with width 4 and replica_count 3, the total slot
count 12 equals width * replica_count, yet `_allocate_processes` carves
only two replicas (each host's leftover 2 slots are unusable) and raises
the insufficient-cluster `ValueError` instead of returning three
allocations. -/
theorem C1_counterexample :
    totalSlots [("hostA", 6), ("hostB", 6)] = 12 ∧
    4 * 3 ≤ totalSlots [("hostA", 6), ("hostB", 6)] ∧
    allocateProcesses [("hostA", 6), ("hostB", 6)] 4 3 =
      .error (.clusterCapacity 3 2) := by
  refine ⟨by decide, by decide, ?_⟩
  rw [allocateProcesses_insufficient [("hostA", 6), ("hostB", 6)] 4 3
    (by decide) (by decide) (by decide)]
  rfl

/-- C1 (amended).  For every ResourcePool whose usable capacity
Σ_host ⌊slots / width⌋ is at least replica_count (width > 0,
replica_count > 0, no duplicate host keys), `_allocate_processes` returns
exactly replica_count allocations, each with exactly width slot indices,
and the union of all (host, slot_index) pairs contains no duplicates. -/
theorem C1_theorem (pool : List (String × Nat)) (width numReplicas : Nat)
    (hw : 0 < width) (hr : 0 < numReplicas)
    (hcap : numReplicas ≤ usableCapacity pool width)
    (hnd : (pool.map Prod.fst).Nodup) :
    ∃ allocs, allocateProcesses pool width numReplicas = .ok allocs ∧
      allocs.length = numReplicas ∧
      (∀ a ∈ allocs, a.2.length = width) ∧
      (allocationPairs allocs).Nodup := by
  refine ⟨specAllocation width pool numReplicas,
    allocateProcesses_ok pool width numReplicas hw hr hcap, ?_, ?_, ?_⟩
  · rw [specAllocation_length]; omega
  · intro a ha; exact (specAllocation_mem width pool numReplicas a ha).2
  · exact allocationPairs_specAllocation_nodup width pool numReplicas hnd

/-- Witness for C1_theorem at the pool {hostA: 8, hostB: 4}, width 4,
replica_count 3. -/
theorem C1_witness :
    ∃ allocs, allocateProcesses [("hostA", 8), ("hostB", 4)] 4 3 = .ok allocs ∧
      allocs.length = 3 ∧ (∀ a ∈ allocs, a.2.length = 4) ∧
      (allocationPairs allocs).Nodup :=
  C1_theorem [("hostA", 8), ("hostB", 4)] 4 3 (by decide) (by decide)
    (by decide) (by decide)

/-- C3.  The claim is refuted by the code, whose own error message shows
the intent: the `slots < tensor_parallel` raise in `_allocate_processes`
is unreachable (it sits inside `while available_on_host >= tensor_parallel`
with `available_on_host` initialised to `slots`), so a host with fewer
than width slots is silently skipped.  First conjunct: at the pool
{hostA: 2, hostB: 4} with width 4 and replica_count 1, hostA is skipped
and the allocation succeeds on hostB.  Second conjunct: no input at all
makes `_allocate_processes` produce the per-host capacity error. -/
theorem C3_theorem :
    allocateProcesses [("hostA", 2), ("hostB", 4)] 4 1 =
      .ok [("hostB", [0, 1, 2, 3])] ∧
    ∀ (pool : List (String × Nat)) (width numReplicas : Nat)
      (host : String) (s w : Nat),
      allocateProcesses pool width numReplicas ≠
        .error (.hostCapacity host s w) := by
  refine ⟨?_, fun pool w r host s ww =>
    allocateProcesses_no_hostCapacity pool w r host s ww⟩
  rw [allocateProcesses_ok [("hostA", 2), ("hostB", 4)] 4 1
    (by decide) (by decide) (by decide)]
  rfl

/-- C5.  Allocation scans hosts in insertion order and carves width-sized
contiguous blocks starting at slot 0, stopping after replica_count
allocations: whenever it succeeds it returns exactly the declarative
first-fit carving `specAllocation`, and on the pool {hostA: 8, hostB: 4}
with width 4 and replica_count 3 it returns
[(hostA,[0,1,2,3]), (hostA,[4,5,6,7]), (hostB,[0,1,2,3])]. -/
theorem C5_theorem :
    (∀ (pool : List (String × Nat)) (width numReplicas : Nat),
      0 < width → 0 < numReplicas → numReplicas ≤ usableCapacity pool width →
      allocateProcesses pool width numReplicas =
        .ok (specAllocation width pool numReplicas)) ∧
    allocateProcesses [("hostA", 8), ("hostB", 4)] 4 3 =
      .ok [("hostA", [0, 1, 2, 3]), ("hostA", [4, 5, 6, 7]),
           ("hostB", [0, 1, 2, 3])] := by
  refine ⟨fun pool w r hw hr hcap => allocateProcesses_ok pool w r hw hr hcap, ?_⟩
  rw [allocateProcesses_ok [("hostA", 8), ("hostB", 4)] 4 3
    (by decide) (by decide) (by decide)]
  rfl

/-- Witness for C5_theorem at the pool {hostC: 4}, width 4,
replica_count 1. -/
theorem C5_witness :
    allocateProcesses [("hostC", 4)] 4 1 =
      .ok (specAllocation 4 [("hostC", 4)] 1) :=
  C5_theorem.1 [("hostC", 4)] 4 1 (by decide) (by decide) (by decide)

/-- C6.  When the scan exhausts all hosts before producing replica_count
allocations, `_allocate_processes` raises the insufficient-cluster error
carrying the requested count and the number actually allocated; on the
pool {hostA: 4} with width 4 and replica_count 2 it reports requested = 2,
allocated = 1. -/
theorem C6_theorem :
    (∀ (pool : List (String × Nat)) (width numReplicas : Nat),
      pool ≠ [] → 0 < width → usableCapacity pool width < numReplicas →
      allocateProcesses pool width numReplicas =
        .error (.clusterCapacity numReplicas (usableCapacity pool width))) ∧
    allocateProcesses [("hostA", 4)] 4 2 = .error (.clusterCapacity 2 1) := by
  refine ⟨fun pool w r hne hw hcap =>
    allocateProcesses_insufficient pool w r hw hne hcap, ?_⟩
  rw [allocateProcesses_insufficient [("hostA", 4)] 4 2
    (by decide) (by decide) (by decide)]
  rfl

/-- Witness for C6_theorem at the pool {hostD: 5}, width 4,
replica_count 3. -/
theorem C6_witness :
    allocateProcesses [("hostD", 5)] 4 3 =
      .error (.clusterCapacity 3 (usableCapacity [("hostD", 5)] 4)) :=
  C6_theorem.1 [("hostD", 5)] 4 3 (by decide) (by decide) (by decide)

/-- C4.  With `enable_load_balancing` modelled from the spec as
"number of replicas > 1", the extra listener-offset port is reserved if
and only if replica_count > 1: for replica_count = 1 the deploy path
builds no balancer plan at all (no offset anywhere), and for
replica_count > 1 every replica i's worker-port block starts at
`port_number + i * tensor_parallel + 1`, leaving `port_number` itself to
the balancer's listener. -/
theorem C4_theorem :
    (∀ (pool : List (String × Nat)) (tp pn tdp : Nat),
      deployPlan pool tp 1 pn tdp = .ok none) ∧
    (∀ (pool : List (String × Nat)) (tp n pn tdp : Nat)
      (cfg : LoadBalancerConfig), 1 < n →
      deployPlan pool tp n pn tdp = .ok (some cfg) →
      cfg.port = pn ∧
      ∀ i (hi : i < cfg.replica_configs.length),
        (cfg.replica_configs.get ⟨i, hi⟩).tensor_parallel_ports =
          List.range' (pn + i * tp + 1) tp) := by
  constructor
  · intro pool tp pn tdp
    simp [deployPlan, enable_load_balancing]
  · intro pool tp n pn tdp cfg hn h
    have helb : enable_load_balancing n = true := by
      simp [enable_load_balancing]; omega
    simp only [deployPlan, helb, if_true] at h
    cases halloc : allocateProcesses pool tp n with
    | error e => rw [halloc] at h; exact absurd h (by simp)
    | ok rp =>
      rw [halloc] at h
      simp only at h
      have hcfg : cfg = ⟨pn, buildReplicaConfigs true tp pn tdp 0 rp⟩ := by
        have := Except.ok.inj h
        exact (Option.some.inj this).symm
      subst hcfg
      refine ⟨rfl, ?_⟩
      intro i hi
      simp only at hi ⊢
      rw [buildReplicaConfigs_ports_get true tp pn tdp rp 0 i hi]
      simp

/-- Witness for C4_theorem: both conjuncts at concrete inputs
(replica_count 1 yields no plan; replica_count 2 puts replica 1's single
worker port at 100 + 1*1 + 1 = 102). -/
theorem C4_witness :
    deployPlan [("h", 4)] 4 1 5000 6000 = .ok none ∧
    (⟨100, [⟨"h", [101], 300, [0]⟩, ⟨"h", [102], 301, [1]⟩]⟩ :
      LoadBalancerConfig).port = 100 ∧
    (((⟨100, [⟨"h", [101], 300, [0]⟩, ⟨"h", [102], 301, [1]⟩]⟩ :
        LoadBalancerConfig).replica_configs.get
          ⟨1, by decide⟩).tensor_parallel_ports =
      List.range' (100 + 1 * 1 + 1) 1) :=
  ⟨C4_theorem.1 [("h", 4)] 4 5000 6000,
   (C4_theorem.2 [("h", 2)] 1 2 100 300 _ (by decide)
     (deployPlan_h2_eval 300)).1,
   (C4_theorem.2 [("h", 2)] 1 2 100 300 _ (by decide)
     (deployPlan_h2_eval 300)).2 1 (by decide)⟩

/-- C7.  The claim as stated is false on the code: nothing constrains the
coordination-port base against the worker-port range, so a call with
`torch_dist_port = port_number + 1` makes replica 0's coordination port
collide with its own worker port: the port list
[100, 101, 102, 101, 102] of this two-replica plan has duplicates. -/
theorem C7_counterexample :
    deployPlan [("h", 2)] 1 2 100 101 =
      .ok (some ⟨100, [⟨"h", [101], 101, [0]⟩, ⟨"h", [102], 102, [1]⟩]⟩) ∧
    ¬ (allPorts ⟨100, [⟨"h", [101], 101, [0]⟩,
        ⟨"h", [102], 102, [1]⟩]⟩).Nodup := by
  constructor
  · exact deployPlan_h2_eval 101
  · decide

/-- C7 (amended).  All ports of a built load-balancer plan — listener,
every replica's worker ports, every replica's coordination port — are
pairwise distinct provided the caller-chosen coordination-port block
[torch_dist_port, torch_dist_port + replicas) does not overlap the
listener/worker range [port_number, port_number + replicas * width];
the code itself performs no such defensive check. -/
theorem C7_theorem (pool : List (String × Nat)) (tp n pn tdp : Nat)
    (cfg : LoadBalancerConfig)
    (h : deployPlan pool tp n pn tdp = .ok (some cfg))
    (hdisj : pn + cfg.replica_configs.length * tp < tdp ∨
      tdp + cfg.replica_configs.length ≤ pn) :
    (allPorts cfg).Nodup := by
  cases helb : enable_load_balancing n with
  | false => simp only [deployPlan, helb, if_false] at h; exact absurd h (by simp)
  | true =>
    simp only [deployPlan, helb, if_true] at h
    cases halloc : allocateProcesses pool tp n with
    | error e => rw [halloc] at h; exact absurd h (by simp)
    | ok rp =>
      rw [halloc] at h
      simp only at h
      have hcfg : cfg = ⟨pn, buildReplicaConfigs true tp pn tdp 0 rp⟩ := by
        have := Except.ok.inj h
        exact (Option.some.inj this).symm
      subst hcfg
      simp only [buildReplicaConfigs_length] at hdisj
      rw [allPorts]
      simp only
      rw [buildReplicaConfigs_workerPorts, buildReplicaConfigs_coordPorts]
      simp only [Nat.zero_mul, Nat.add_zero, if_true]
      rw [List.nodup_cons, List.nodup_append]
      refine ⟨?_, List.nodup_range' .., List.nodup_range' .., ?_⟩
      · intro hmem
        rcases List.mem_append.mp hmem with hm | hm
        · have := mem_range'_bounds hm
          omega
        · have := mem_range'_bounds hm
          omega
      · intro x hx1 hx2
        have hb1 := mem_range'_bounds hx1
        have hb2 := mem_range'_bounds hx2
        omega

/-- Witness for C7_theorem: a coordination base far above the worker
range gives a duplicate-free port set. -/
theorem C7_witness :
    (allPorts ⟨100, [⟨"h", [101], 1000, [0]⟩,
        ⟨"h", [102], 1001, [1]⟩]⟩).Nodup :=
  C7_theorem [("h", 2)] 1 2 100 1000 _ (deployPlan_h2_eval 1000) (by decide)

/-- C9.  The claim as stated is false on the code: the AML name assertion
`set(deployment_name) <= allowed_chars` accepts the empty name (the empty
set is a subset of every set), so the "at least one character" part of
`[A-Za-z0-9-]+` is not enforced: deploying under the empty name proceeds
past the validation instead of raising. -/
theorem C9_counterexample :
    deploy DeploymentType.AML "" [("h", 4)] 4 1 100 200 = .ok none ∧
    ("" : String).length = 0 := by
  exact ⟨rfl, rfl⟩

/-- C9 (amended).  Any deployment name containing a character outside
[A-Za-z0-9-] is rejected by the AML path of `deploy` with the
invalid-name error, before the resource pool is ever consulted (the
result is the name error for every pool and port choice); the empty
name, however, is accepted.  In particular "my-model!" is rejected. -/
theorem C9_theorem :
    (∀ (name : String) (pool : List (String × Nat)) (tp n pn tdp : Nat),
      validDeploymentName name = false →
      deploy DeploymentType.AML name pool tp n pn tdp =
        .error (.invalidDeploymentName name)) ∧
    deploy DeploymentType.AML "my-model!" [("h", 4)] 4 2 100 200 =
      .error (.invalidDeploymentName "my-model!") := by
  have hmain : ∀ (name : String) (pool : List (String × Nat)) (tp n pn tdp : Nat),
      validDeploymentName name = false →
      deploy DeploymentType.AML name pool tp n pn tdp =
        .error (.invalidDeploymentName name) := by
    intro name pool tp n pn tdp hv
    rw [deploy, if_pos ⟨rfl, hv⟩]
  exact ⟨hmain, hmain "my-model!" [("h", 4)] 4 2 100 200 (by decide)⟩

/-- Witness for C9_theorem: a name with an underscore is rejected even on
an empty pool with zero ports (no allocation is consulted). -/
theorem C9_witness :
    deploy DeploymentType.AML "bad_name" [] 0 0 0 0 =
      .error (.invalidDeploymentName "bad_name") :=
  C9_theorem.1 "bad_name" [] 0 0 0 0 (by decide)

/-- C2.  The tensor-parallel `query` submits the identical request to
every rank's endpoint (conjunct two: in the loop state at return, rank
i's task holds rank i's endpoint applied to the one request) and returns
rank 0's resolved value whenever rank 0 succeeds, for every choice of the
other ranks' latencies and results — the latencies are arbitrary fields
of `clients`, so every completion order is covered. -/
theorem C2_theorem {ρ ε α : Type} (clients : List (Endpoint ρ ε α))
    (request : ρ) (c0 : Endpoint ρ ε α) (v : α)
    (h0 : clients.head? = some c0) (hok : c0.respond request = .ok v) :
    (queryInTensorParallel clients request).1 = some (Except.ok v) ∧
    ∀ i (hi : i < (queryInTensorParallel clients request).2.length)
      (hi' : i < clients.length),
      ((queryInTensorParallel clients request).2.get ⟨i, hi⟩).result =
        (clients.get ⟨i, hi'⟩).respond request := by
  constructor
  · rw [query_fst clients request c0 h0, hok]
  · intro i hi hi'
    rw [query_snd_get clients request c0 h0 i hi hi']

/-- Witness for C2_theorem: three fake endpoints with rank 0 slowest
(latencies 5, 0, 3); the query still returns rank 0's payload 42. -/
theorem C2_witness :
    (queryInTensorParallel
      ([⟨5, fun _ => Except.ok 42⟩, ⟨0, fun _ => Except.ok 7⟩,
        ⟨3, fun _ => Except.ok 9⟩] : List (Endpoint Nat Unit Nat)) 0).1 =
      some (Except.ok 42) :=
  (C2_theorem
    ([⟨5, fun _ => Except.ok 42⟩, ⟨0, fun _ => Except.ok 7⟩,
      ⟨3, fun _ => Except.ok 9⟩] : List (Endpoint Nat Unit Nat))
    0 ⟨5, fun _ => Except.ok 42⟩ 42 rfl rfl).1

/-- C10.  The tensor-parallel `query` awaits only rank 0's task: at the
moment it returns, the loop still holds one task per rank (none were
cancelled or removed), each task has advanced by exactly rank 0's latency
(the loop ran only until rank 0 completed — no other task was awaited or
drained), and every rank whose latency exceeds rank 0's is still
pending. -/
theorem C10_theorem {ρ ε α : Type} (clients : List (Endpoint ρ ε α))
    (request : ρ) (c0 : Endpoint ρ ε α) (h0 : clients.head? = some c0) :
    (queryInTensorParallel clients request).2.length = clients.length ∧
    (∀ i (hi : i < (queryInTensorParallel clients request).2.length)
      (hi' : i < clients.length),
      ((queryInTensorParallel clients request).2.get ⟨i, hi⟩).remaining =
        (clients.get ⟨i, hi'⟩).latency - c0.latency) ∧
    (∀ i (hi : i < (queryInTensorParallel clients request).2.length)
      (hi' : i < clients.length),
      c0.latency < (clients.get ⟨i, hi'⟩).latency →
      0 < ((queryInTensorParallel clients request).2.get ⟨i, hi⟩).remaining) := by
  refine ⟨query_snd_length clients request, ?_, ?_⟩
  · intro i hi hi'
    rw [query_snd_get clients request c0 h0 i hi hi']
  · intro i hi hi' hlt
    rw [query_snd_get clients request c0 h0 i hi hi']
    simp only
    omega

/-- Witness for C10_theorem: two endpoints with latencies 1 and 4; after
`query` returns, rank 1's task still has 4 - 1 ticks to go. -/
theorem C10_witness :
    ((queryInTensorParallel
      ([⟨1, fun _ => Except.ok 0⟩, ⟨4, fun _ => Except.ok 0⟩] :
        List (Endpoint Nat Unit Nat)) 0).2.get
        ⟨1, by rw [query_snd_length]; decide⟩).remaining = 4 - 1 :=
  (C10_theorem
    ([⟨1, fun _ => Except.ok 0⟩, ⟨4, fun _ => Except.ok 0⟩] :
      List (Endpoint Nat Unit Nat))
    0 ⟨1, fun _ => Except.ok 0⟩ rfl).2.1 1 _ (by decide)

/-- C8.  The claim as stated is false on the code:
`MIITensorParallelClient.terminate` is a bare sequential loop, so when
rank 0's termination fails the loop aborts — ranks 1 and 2 are never
terminated (flags [true, false, false]) and only the first failure is
reported (some 1), not an aggregate of both failures. -/
theorem C8_counterexample :
    terminateSeq [Except.error 1, Except.ok (), Except.error (2 : Nat)] =
      ([true, false, false], some 1) ∧
    (terminateSeq [Except.error 1, Except.ok (),
      Except.error (2 : Nat)]).1 ≠ [true, true, true] := by
  exact ⟨rfl, by decide⟩

/-- C8 (amended).  `terminate` invokes each rank's termination in order
and stops at the first failure, propagating exactly that failure: when
every termination succeeds all ranks are terminated and no error is
reported; when the first failure occurs after a successful prefix, the
prefix and the failing rank are invoked, the remaining ranks are not, and
only the first failure is reported (no aggregation). -/
theorem C8_theorem {ε : Type} :
    (∀ (bs : List (Except ε Unit)), (∀ b ∈ bs, b = .ok ()) →
      terminateSeq bs = (bs.map fun _ => true, none)) ∧
    (∀ (bs1 : List (Except ε Unit)) (e : ε) (bs2 : List (Except ε Unit)),
      (∀ b ∈ bs1, b = .ok ()) →
      terminateSeq (bs1 ++ Except.error e :: bs2) =
        ((bs1.map fun _ => true) ++ true :: bs2.map fun _ => false, some e)) := by
  constructor
  · intro bs hall
    induction bs with
    | nil => rfl
    | cons b rest ih =>
      have hb : b = .ok () := hall b (List.mem_cons_self ..)
      subst hb
      have hrest := ih fun x hx => hall x (List.mem_cons_of_mem _ hx)
      simp [terminateSeq, hrest]
  · intro bs1 e bs2 hall
    induction bs1 with
    | nil => simp [terminateSeq]
    | cons b rest ih =>
      have hb : b = .ok () := hall b (List.mem_cons_self ..)
      subst hb
      have hrest := ih fun x hx => hall x (List.mem_cons_of_mem _ hx)
      simp [terminateSeq, hrest]

/-- Witness for C8_theorem: a success, then a failure 5, then one more
client — the loop reaches the first two only and reports 5. -/
theorem C8_witness :
    terminateSeq [Except.ok (), Except.error (5 : Nat), Except.ok ()] =
      ([true, true, false], some 5) :=
  C8_theorem.2 [Except.ok ()] 5 [Except.ok ()]
    (fun b hb => by rw [List.mem_singleton] at hb; exact hb)

end MII

